import Mathlib

/-!
Shallow embedding of `BloomFilter.py`: a classic Bloom filter (`BloomFilter`)
and a scalable variant (`ScalableBloomFilter`).

Modelling conventions:
* Python ints are `ℤ` (or `ℕ` where the source value is a count that is
  always non-negative), Python floats are idealised as real numbers `ℝ`.
* The external seeded hash `mmh3.hash(element, seed)` is an arbitrary
  function `hash : String → ℕ → ℤ`; Python's `%` on a positive divisor
  agrees with `Int.emod`, whose result is then non-negative.
* The bit array is a `List Bool`; indexing is totalised with `List.getD`
  (every index reached during real executions is in range, since every
  probe position is `< size = length`).
* Constructors that `raise ValueError` are `Except String` values.
* `union`/`intersection` signal incompatibility by returning `None` in the
  source; this is `Option.none` here.
-/

/-- Probe position used by `add`/`lookup`:
`position = mmh3.hash(element, seed) % self.size` (line 52 / 68). -/
def hashPos (hash : String → ℕ → ℤ) (size : ℕ) (e : String) (seed : ℕ) : ℕ :=
  ((hash e seed) % (size : ℤ)).toNat

/-- State of a `BloomFilter` object (fields of `__init__`, lines 26-40). -/
structure BloomFilter where
  capacity : ℤ
  error_rate : ℝ
  size : ℕ
  hash_count : ℕ
  bit_array : List Bool
  element_count : ℕ

/-- `calc_size` (line 135): `int(ceil(-(capacity * log(error_rate)) / log(2)**2))`,
floats idealised as reals. -/
noncomputable def BloomFilter.calc_size (capacity : ℤ) (error_rate : ℝ) : ℤ :=
  ⌈-((capacity : ℝ) * Real.log error_rate) / (Real.log 2) ^ 2⌉

/-- `calc_hash_count` (line 143): `int(ceil((size / capacity) * log(2)))`. -/
noncomputable def BloomFilter.calc_hash_count (size : ℕ) (capacity : ℤ) : ℤ :=
  ⌈((size : ℝ) / (capacity : ℝ)) * Real.log 2⌉

/-- The unchecked body of `BloomFilter.__init__` (lines 29-40): derives
`size` and `hash_count`, zeroes the bit array, zero element count. -/
noncomputable def mkFilter (capacity : ℤ) (error_rate : ℝ) : BloomFilter :=
  let size := (BloomFilter.calc_size capacity error_rate).toNat
  { capacity := capacity
    error_rate := error_rate
    size := size
    hash_count := (BloomFilter.calc_hash_count size capacity).toNat
    bit_array := List.replicate size false
    element_count := 0 }

/-- `BloomFilter.__init__` with its validation (lines 26-27). -/
noncomputable def BloomFilter.init (capacity : ℤ) (error_rate : ℝ) :
    Except String BloomFilter :=
  if ¬ capacity > 0 then .error "capacity must be > 0"
  else if ¬ (0 < error_rate ∧ error_rate < 1) then
    .error "error_rate must be between 0 and 1."
  else .ok (mkFilter capacity error_rate)

/-- `BloomFilter.add` (lines 42-54): sets the `hash_count` probe bits and
increments `element_count` unconditionally. -/
def BloomFilter.add (hash : String → ℕ → ℤ) (f : BloomFilter) (e : String) :
    BloomFilter :=
  { f with
    bit_array :=
      (List.range f.hash_count).foldl
        (fun bits seed => bits.set (hashPos hash f.size e seed) true) f.bit_array
    element_count := f.element_count + 1 }

/-- `BloomFilter.lookup` (lines 56-71): true iff every probe bit is set
(the source's early `return False` is the same as `List.all`). -/
def BloomFilter.lookup (hash : String → ℕ → ℤ) (f : BloomFilter) (e : String) :
    Bool :=
  (List.range f.hash_count).all
    (fun seed => f.bit_array.getD (hashPos hash f.size e seed) false)

/-- `calc_element_count` (line 174): `int(ceil(-(size * log(1 - x/size)) / hash_count))`
with `x` the number of set bits. -/
noncomputable def BloomFilter.calc_element_count (f : BloomFilter) : ℤ :=
  ⌈-((f.size : ℝ) * Real.log (1 - ((f.bit_array.count true : ℝ) / (f.size : ℝ))))
      / (f.hash_count : ℝ)⌉

/-- `BloomFilter.union` (lines 73-95): `None` on size/hash_count mismatch,
else a fresh `BloomFilter(self.capacity, self.error_rate)` whose bit array
is the bitwise OR and whose element count is the sum.  (The constructor's
validation is a no-op here: `union` is only reached from filters whose
`capacity`/`error_rate` already passed it.) -/
noncomputable def BloomFilter.union (a b : BloomFilter) : Option BloomFilter :=
  if a.size ≠ b.size then none
  else if a.hash_count ≠ b.hash_count then none
  else some
    { mkFilter a.capacity a.error_rate with
      bit_array := List.zipWith or a.bit_array b.bit_array
      element_count := a.element_count + b.element_count }

/-- `BloomFilter.intersection` (lines 97-120): bitwise AND, element count
re-estimated from the resulting bit array. -/
noncomputable def BloomFilter.intersection (a b : BloomFilter) :
    Option BloomFilter :=
  if a.size ≠ b.size then none
  else if a.hash_count ≠ b.hash_count then none
  else
    let r :=
      { mkFilter a.capacity a.error_rate with
        bit_array := List.zipWith and a.bit_array b.bit_array }
    some { r with element_count := r.calc_element_count.toNat }

/-- `BloomFilter.is_full` (lines 122-127). -/
def BloomFilter.is_full (f : BloomFilter) : Bool :=
  if (f.element_count : ℤ) < f.capacity then false else true

/-- `BloomFilter.__contains__` (lines 176-177). -/
def BloomFilter.contains (hash : String → ℕ → ℤ) (f : BloomFilter)
    (e : String) : Bool :=
  f.lookup hash e

/-- A filter "built from scratch" by adding each element of `xs` to a
freshly constructed filter. -/
noncomputable def buildFrom (hash : String → ℕ → ℤ) (capacity : ℤ)
    (error_rate : ℝ) (xs : List String) : BloomFilter :=
  xs.foldl (BloomFilter.add hash) (mkFilter capacity error_rate)

/-- The invariant `__init__` establishes and every method preserves:
`size`/`hash_count` agree with their derivation from `capacity` and
`error_rate`, and the bit array has length `size`. -/
def WellFormed (f : BloomFilter) : Prop :=
  f.size = (mkFilter f.capacity f.error_rate).size ∧
  f.hash_count = (mkFilter f.capacity f.error_rate).hash_count ∧
  f.bit_array.length = f.size

/-- A placeholder filter, used only as the default of totalised list
indexing (`filters[-1]` and friends are never reached on an empty list in
the source: the constructor seeds one filter). -/
noncomputable def emptyBF : BloomFilter :=
  { capacity := 0, error_rate := 0, size := 0, hash_count := 0
    bit_array := [], element_count := 0 }

/-- State of a `ScalableBloomFilter` object (fields of `__init__`,
lines 209-220). -/
structure ScalableBloomFilter where
  initial_capacity : ℤ
  element_count : ℕ
  error_rate : ℝ
  scale_factor : ℝ
  scale_mode : ℤ
  filters : List BloomFilter

/-- `SCALE_MODE_LINEAR = 1` (line 181). -/
def ScalableBloomFilter.SCALE_MODE_LINEAR : ℤ := 1

/-- `SCALE_MODE_EXPONENTIAL = 2` (line 182). -/
def ScalableBloomFilter.SCALE_MODE_EXPONENTIAL : ℤ := 2

/-- The unchecked body of `ScalableBloomFilter.__init__` (lines 209-220):
stores the configuration and seeds `filters` with one
`BloomFilter(initial_capacity, error_rate)`. -/
noncomputable def ScalableBloomFilter.mk0 (initial_capacity : ℤ)
    (error_rate scale_factor : ℝ) (scale_mode : ℤ) : ScalableBloomFilter :=
  { initial_capacity := initial_capacity
    element_count := 0
    error_rate := error_rate
    scale_factor := scale_factor
    scale_mode := scale_mode
    filters := [mkFilter initial_capacity error_rate] }

/-- `ScalableBloomFilter.__init__` with its validation (lines 204-207). -/
noncomputable def ScalableBloomFilter.init (initial_capacity : ℤ)
    (error_rate scale_factor : ℝ) (scale_mode : ℤ) :
    Except String ScalableBloomFilter :=
  if ¬ initial_capacity > 0 then .error "initial_capacity must be > 0."
  else if ¬ (0 < error_rate ∧ error_rate < 1) then
    .error "error_rate must be between 0 and 1."
  else if ¬ scale_factor > 0 then .error "scale_factor must be > 0."
  else if ¬ (scale_mode = 1 ∨ scale_mode = 2) then
    .error "Invalid scale_mode, use one of the SCALE_MODE_* constants."
  else .ok (mk0 initial_capacity error_rate scale_factor scale_mode)

/-- Python's `int(x)` on a float: truncation toward zero. -/
noncomputable def py_int (x : ℝ) : ℤ := if 0 ≤ x then ⌊x⌋ else ⌈x⌉

/-- `calc_next_capacity` (lines 250-258), computed from the current
`len(self.filters)` (before any append). -/
noncomputable def ScalableBloomFilter.calc_next_capacity
    (s : ScalableBloomFilter) : ℤ :=
  if s.scale_mode = SCALE_MODE_LINEAR then
    py_int ((s.initial_capacity : ℝ) * (s.scale_factor * (s.filters.length : ℝ)))
  else
    py_int ((s.initial_capacity : ℝ) * (s.scale_factor ^ s.filters.length))

/-- `ScalableBloomFilter.add` (lines 222-233): if the last filter is full,
append a fresh `BloomFilter(calc_next_capacity(), error_rate)`; then add
to the last filter and bump the aggregate count.  (As in `union`, the
constructor's validation is a no-op for capacities produced by a valid
configuration.) -/
noncomputable def ScalableBloomFilter.add (hash : String → ℕ → ℤ)
    (s : ScalableBloomFilter) (e : String) : ScalableBloomFilter :=
  let fs :=
    if (s.filters.getLastD emptyBF).is_full then
      s.filters ++ [mkFilter s.calc_next_capacity s.error_rate]
    else s.filters
  { s with
    filters := fs.dropLast ++ [(fs.getLastD emptyBF).add hash e]
    element_count := s.element_count + 1 }

/-- `ScalableBloomFilter.lookup` (lines 235-248): true iff some filter
answers true (the source iterates newest-first with early return). -/
noncomputable def ScalableBloomFilter.lookup (hash : String → ℕ → ℤ)
    (s : ScalableBloomFilter) (e : String) : Bool :=
  s.filters.reverse.any (fun f => f.lookup hash e)

/-- `ScalableBloomFilter.union` (lines 260-289): a fresh
`ScalableBloomFilter` with this instance's configuration, `filters` the
concatenation of both operands' sequences, `element_count` the sum. -/
noncomputable def ScalableBloomFilter.union (a b : ScalableBloomFilter) :
    ScalableBloomFilter :=
  { mk0 a.initial_capacity a.error_rate a.scale_factor a.scale_mode with
    filters := a.filters ++ b.filters
    element_count := a.element_count + b.element_count }

/-- `ScalableBloomFilter.__contains__` (lines 291-292). -/
noncomputable def ScalableBloomFilter.contains (hash : String → ℕ → ℤ)
    (s : ScalableBloomFilter) (e : String) : Bool :=
  s.lookup hash e

/-! ### List-level helper lemmas -/

lemma getD_true_lt_length {l : List Bool} {i : ℕ}
    (h : l.getD i false = true) : i < l.length := by
  by_contra hlt
  rw [List.getD_eq_default l false (le_of_not_lt hlt)] at h
  exact Bool.false_ne_true h

lemma getD_set_true_iff (l : List Bool) (j i : ℕ) :
    ((l.set j true).getD i false = true) ↔
      ((i = j ∧ j < l.length) ∨ l.getD i false = true) := by
  rw [List.getD_eq_getElem?_getD, List.getD_eq_getElem?_getD, List.getElem?_set]
  by_cases hji : j = i
  · subst hji
    by_cases hl : j < l.length
    · simp [hl]
    · rw [List.getElem?_eq_none (le_of_not_lt hl)]
      simp [hl]
  · have hij : i ≠ j := fun h => hji h.symm
    simp [hji, hij]

lemma foldl_set_length (p : ℕ → ℕ) :
    ∀ (seeds : List ℕ) (bits : List Bool),
      (seeds.foldl (fun bs s => bs.set (p s) true) bits).length = bits.length := by
  intro seeds
  induction seeds with
  | nil => intro bits; rfl
  | cons s rest ih =>
    intro bits
    simp only [List.foldl_cons]
    rw [ih, List.length_set]

lemma foldl_set_getD_true_iff (p : ℕ → ℕ) :
    ∀ (seeds : List ℕ) (bits : List Bool) (i : ℕ),
      ((seeds.foldl (fun bs s => bs.set (p s) true) bits).getD i false = true) ↔
        (bits.getD i false = true ∨ ∃ s ∈ seeds, p s = i ∧ i < bits.length) := by
  intro seeds
  induction seeds with
  | nil => intro bits i; simp
  | cons s rest ih =>
    intro bits i
    simp only [List.foldl_cons]
    rw [ih, getD_set_true_iff, List.length_set]
    constructor
    · rintro ((⟨rfl, hj⟩ | h) | ⟨s', hs', hp, hi⟩)
      · exact Or.inr ⟨s, List.mem_cons_self s rest, rfl, hj⟩
      · exact Or.inl h
      · exact Or.inr ⟨s', List.mem_cons_of_mem s hs', hp, hi⟩
    · rintro (h | ⟨s', hs', hp, hi⟩)
      · exact Or.inl (Or.inr h)
      · rcases List.mem_cons.mp hs' with rfl | hmem
        · exact Or.inl (Or.inl ⟨hp.symm, hp ▸ hi⟩)
        · exact Or.inr ⟨s', hmem, hp, hi⟩

lemma getD_zipWith_or_true_iff :
    ∀ (a b : List Bool) (i : ℕ),
      ((List.zipWith or a b).getD i false = true) ↔
        (i < a.length ∧ i < b.length ∧
          (a.getD i false = true ∨ b.getD i false = true)) := by
  intro a
  induction a with
  | nil => intro b i; simp
  | cons x a ih =>
    intro b i
    cases b with
    | nil => simp
    | cons y b =>
      cases i with
      | zero => simp [Bool.or_eq_true]
      | succ i =>
        simp only [List.zipWith_cons_cons, List.getD_cons_succ, List.length_cons, ih]
        constructor
        · rintro ⟨h1, h2, h3⟩
          exact ⟨by omega, by omega, h3⟩
        · rintro ⟨h1, h2, h3⟩
          exact ⟨by omega, by omega, h3⟩

lemma getD_zipWith_and_true_iff :
    ∀ (a b : List Bool) (i : ℕ),
      ((List.zipWith and a b).getD i false = true) ↔
        (i < a.length ∧ i < b.length ∧
          a.getD i false = true ∧ b.getD i false = true) := by
  intro a
  induction a with
  | nil => intro b i; simp
  | cons x a ih =>
    intro b i
    cases b with
    | nil => simp
    | cons y b =>
      cases i with
      | zero => simp [Bool.and_eq_true]
      | succ i =>
        simp only [List.zipWith_cons_cons, List.getD_cons_succ, List.length_cons, ih]
        constructor
        · rintro ⟨h1, h2, h3⟩
          exact ⟨by omega, by omega, h3⟩
        · rintro ⟨h1, h2, h3⟩
          exact ⟨by omega, by omega, h3⟩

/-! ### Helper lemmas about `BloomFilter.add` and `lookup` -/

@[simp] lemma add_size (hash : String → ℕ → ℤ) (f : BloomFilter) (e : String) :
    (f.add hash e).size = f.size := rfl

@[simp] lemma add_hash_count (hash : String → ℕ → ℤ) (f : BloomFilter)
    (e : String) : (f.add hash e).hash_count = f.hash_count := rfl

@[simp] lemma add_capacity (hash : String → ℕ → ℤ) (f : BloomFilter)
    (e : String) : (f.add hash e).capacity = f.capacity := rfl

@[simp] lemma add_error_rate (hash : String → ℕ → ℤ) (f : BloomFilter)
    (e : String) : (f.add hash e).error_rate = f.error_rate := rfl

@[simp] lemma add_element_count (hash : String → ℕ → ℤ) (f : BloomFilter)
    (e : String) : (f.add hash e).element_count = f.element_count + 1 := rfl

@[simp] lemma add_bit_length (hash : String → ℕ → ℤ) (f : BloomFilter)
    (e : String) : (f.add hash e).bit_array.length = f.bit_array.length :=
  foldl_set_length _ _ _

lemma add_getD_true_iff (hash : String → ℕ → ℤ) (f : BloomFilter)
    (e : String) (i : ℕ) :
    ((f.add hash e).bit_array.getD i false = true) ↔
      (f.bit_array.getD i false = true ∨
        ∃ s < f.hash_count, hashPos hash f.size e s = i ∧ i < f.bit_array.length) := by
  show ((List.range f.hash_count).foldl _ f.bit_array).getD i false = true ↔ _
  rw [foldl_set_getD_true_iff]
  simp only [List.mem_range]

lemma add_getD_mono (hash : String → ℕ → ℤ) (f : BloomFilter) (e : String)
    (i : ℕ) (h : f.bit_array.getD i false = true) :
    (f.add hash e).bit_array.getD i false = true :=
  (add_getD_true_iff hash f e i).mpr (Or.inl h)

lemma lookup_iff (hash : String → ℕ → ℤ) (f : BloomFilter) (e : String) :
    (f.lookup hash e = true) ↔
      ∀ s < f.hash_count, f.bit_array.getD (hashPos hash f.size e s) false = true := by
  simp [BloomFilter.lookup, List.all_eq_true, List.mem_range]

lemma hashPos_lt (hash : String → ℕ → ℤ) (size : ℕ) (e : String) (seed : ℕ)
    (h : 0 < size) : hashPos hash size e seed < size := by
  have hne : (size : ℤ) ≠ 0 := by exact_mod_cast Nat.pos_iff_ne_zero.mp h
  have h1 : 0 ≤ (hash e seed) % (size : ℤ) := Int.emod_nonneg _ hne
  have h2 : (hash e seed) % (size : ℤ) < (size : ℤ) :=
    Int.emod_lt_of_pos _ (by exact_mod_cast h)
  simpa [hashPos] using (Int.toNat_lt h1).mpr h2

lemma add_sets_probe_bits (hash : String → ℕ → ℤ) (f : BloomFilter)
    (e : String) (hsz : 0 < f.size) (hlen : f.bit_array.length = f.size) :
    ∀ s < f.hash_count,
      (f.add hash e).bit_array.getD (hashPos hash f.size e s) false = true := by
  intro s hs
  exact (add_getD_true_iff hash f e _).mpr
    (Or.inr ⟨s, hs, rfl, by rw [hlen]; exact hashPos_lt hash f.size e s hsz⟩)

lemma lookup_add_self (hash : String → ℕ → ℤ) (f : BloomFilter) (e : String)
    (hsz : 0 < f.size) (hlen : f.bit_array.length = f.size) :
    (f.add hash e).lookup hash e = true := by
  rw [lookup_iff]
  intro s hs
  exact add_sets_probe_bits hash f e hsz hlen s (by simpa using hs)

/-! ### Helper lemmas about folds of `add` -/

lemma foldl_add_size (hash : String → ℕ → ℤ) :
    ∀ (xs : List String) (f : BloomFilter),
      (xs.foldl (BloomFilter.add hash) f).size = f.size := by
  intro xs
  induction xs with
  | nil => intro f; rfl
  | cons x xs ih => intro f; rw [List.foldl_cons, ih]; rfl

lemma foldl_add_hash_count (hash : String → ℕ → ℤ) :
    ∀ (xs : List String) (f : BloomFilter),
      (xs.foldl (BloomFilter.add hash) f).hash_count = f.hash_count := by
  intro xs
  induction xs with
  | nil => intro f; rfl
  | cons x xs ih => intro f; rw [List.foldl_cons, ih]; rfl

lemma foldl_add_capacity (hash : String → ℕ → ℤ) :
    ∀ (xs : List String) (f : BloomFilter),
      (xs.foldl (BloomFilter.add hash) f).capacity = f.capacity := by
  intro xs
  induction xs with
  | nil => intro f; rfl
  | cons x xs ih => intro f; rw [List.foldl_cons, ih]; rfl

lemma foldl_add_error_rate (hash : String → ℕ → ℤ) :
    ∀ (xs : List String) (f : BloomFilter),
      (xs.foldl (BloomFilter.add hash) f).error_rate = f.error_rate := by
  intro xs
  induction xs with
  | nil => intro f; rfl
  | cons x xs ih => intro f; rw [List.foldl_cons, ih]; rfl

lemma foldl_add_bit_length (hash : String → ℕ → ℤ) :
    ∀ (xs : List String) (f : BloomFilter),
      (xs.foldl (BloomFilter.add hash) f).bit_array.length = f.bit_array.length := by
  intro xs
  induction xs with
  | nil => intro f; rfl
  | cons x xs ih => intro f; rw [List.foldl_cons, ih, add_bit_length]

lemma foldl_add_getD_mono (hash : String → ℕ → ℤ) :
    ∀ (xs : List String) (f : BloomFilter) (i : ℕ),
      f.bit_array.getD i false = true →
      (xs.foldl (BloomFilter.add hash) f).bit_array.getD i false = true := by
  intro xs
  induction xs with
  | nil => intro f i h; exact h
  | cons x xs ih =>
    intro f i h
    rw [List.foldl_cons]
    exact ih _ i (add_getD_mono hash f x i h)

lemma foldl_add_getD_true_iff (hash : String → ℕ → ℤ) :
    ∀ (xs : List String) (f : BloomFilter) (i : ℕ),
      ((xs.foldl (BloomFilter.add hash) f).bit_array.getD i false = true) ↔
        (f.bit_array.getD i false = true ∨
          ∃ x ∈ xs, ∃ s < f.hash_count,
            hashPos hash f.size x s = i ∧ i < f.bit_array.length) := by
  intro xs
  induction xs with
  | nil => intro f i; simp
  | cons x xs ih =>
    intro f i
    rw [List.foldl_cons, ih, add_getD_true_iff]
    simp only [add_size, add_hash_count, add_bit_length, List.mem_cons]
    constructor
    · rintro ((h | ⟨s, hs, hp, hi⟩) | ⟨x', hx', s, hs, hp, hi⟩)
      · exact Or.inl h
      · exact Or.inr ⟨x, Or.inl rfl, s, hs, hp, hi⟩
      · exact Or.inr ⟨x', Or.inr hx', s, hs, hp, hi⟩
    · rintro (h | ⟨x', hx' | hx', s, hs, hp, hi⟩)
      · exact Or.inl (Or.inl h)
      · exact Or.inl (Or.inr ⟨s, hs, by rw [hx'] at hp; exact hp, hi⟩)
      · exact Or.inr ⟨x', hx', s, hs, hp, hi⟩

/-! ### Helper lemmas about `mkFilter` and `WellFormed` -/

@[simp] lemma mkFilter_capacity (c : ℤ) (p : ℝ) : (mkFilter c p).capacity = c := rfl

@[simp] lemma mkFilter_error_rate (c : ℤ) (p : ℝ) : (mkFilter c p).error_rate = p := rfl

@[simp] lemma mkFilter_element_count (c : ℤ) (p : ℝ) :
    (mkFilter c p).element_count = 0 := rfl

lemma mkFilter_size (c : ℤ) (p : ℝ) :
    (mkFilter c p).size = (BloomFilter.calc_size c p).toNat := rfl

lemma mkFilter_hash_count (c : ℤ) (p : ℝ) :
    (mkFilter c p).hash_count =
      (BloomFilter.calc_hash_count (BloomFilter.calc_size c p).toNat c).toNat := rfl

@[simp] lemma mkFilter_bit_length (c : ℤ) (p : ℝ) :
    (mkFilter c p).bit_array.length = (mkFilter c p).size := by
  simp [mkFilter]

@[simp] lemma mkFilter_getD (c : ℤ) (p : ℝ) (i : ℕ) :
    (mkFilter c p).bit_array.getD i false = false := by
  show (List.replicate (mkFilter c p).size false).getD i false = false
  rw [List.getD_eq_getElem?_getD, List.getElem?_replicate]
  by_cases h : i < (mkFilter c p).size <;> simp [h]

lemma wellFormed_mkFilter (c : ℤ) (p : ℝ) : WellFormed (mkFilter c p) :=
  ⟨rfl, rfl, mkFilter_bit_length c p⟩

lemma wellFormed_add (hash : String → ℕ → ℤ) (f : BloomFilter) (e : String)
    (h : WellFormed f) : WellFormed (f.add hash e) := by
  obtain ⟨h1, h2, h3⟩ := h
  exact ⟨h1, h2, by rw [add_bit_length, h3]; rfl⟩

lemma wellFormed_foldl_add (hash : String → ℕ → ℤ) (xs : List String)
    (f : BloomFilter) (h : WellFormed f) :
    WellFormed (xs.foldl (BloomFilter.add hash) f) := by
  obtain ⟨h1, h2, h3⟩ := h
  refine ⟨?_, ?_, ?_⟩
  · rw [foldl_add_size, foldl_add_capacity, foldl_add_error_rate]; exact h1
  · rw [foldl_add_hash_count, foldl_add_capacity, foldl_add_error_rate]; exact h2
  · rw [foldl_add_bit_length, foldl_add_size, h3]

lemma wellFormed_buildFrom (hash : String → ℕ → ℤ) (c : ℤ) (p : ℝ)
    (xs : List String) : WellFormed (buildFrom hash c p xs) :=
  wellFormed_foldl_add hash xs _ (wellFormed_mkFilter c p)

/-! ### Positivity of the derived sizing values -/

lemma calc_size_pos (c : ℤ) (p : ℝ) (hc : 0 < c) (hp0 : 0 < p) (hp1 : p < 1) :
    0 < BloomFilter.calc_size c p := by
  rw [BloomFilter.calc_size]
  apply Int.ceil_pos.mpr
  apply div_pos
  · have hlog : Real.log p < 0 := Real.log_neg hp0 hp1
    have hcr : (0 : ℝ) < (c : ℝ) := by exact_mod_cast hc
    nlinarith
  · have h2 : Real.log 2 > 0 := Real.log_pos one_lt_two
    positivity

lemma mkFilter_size_pos (c : ℤ) (p : ℝ) (hc : 0 < c) (hp0 : 0 < p)
    (hp1 : p < 1) : 0 < (mkFilter c p).size := by
  rw [mkFilter_size]
  have := calc_size_pos c p hc hp0 hp1
  omega

lemma mkFilter_hash_count_pos (c : ℤ) (p : ℝ) (hc : 0 < c) (hp0 : 0 < p)
    (hp1 : p < 1) : 0 < (mkFilter c p).hash_count := by
  rw [mkFilter_hash_count]
  have hsize : 0 < (BloomFilter.calc_size c p).toNat := by
    have := calc_size_pos c p hc hp0 hp1
    omega
  have hpos : 0 < BloomFilter.calc_hash_count (BloomFilter.calc_size c p).toNat c := by
    rw [BloomFilter.calc_hash_count]
    apply Int.ceil_pos.mpr
    apply mul_pos
    · apply div_pos
      · exact_mod_cast hsize
      · exact_mod_cast hc
    · exact Real.log_pos one_lt_two
  omega

/-! ### Shape of `union` and `intersection` on compatible filters -/

lemma union_eq_some (a b : BloomFilter) (hs : a.size = b.size)
    (hh : a.hash_count = b.hash_count) :
    a.union b = some
      { mkFilter a.capacity a.error_rate with
        bit_array := List.zipWith or a.bit_array b.bit_array
        element_count := a.element_count + b.element_count } := by
  rw [BloomFilter.union]
  simp [hs, hh]

lemma intersection_eq_some (a b : BloomFilter) (hs : a.size = b.size)
    (hh : a.hash_count = b.hash_count) :
    a.intersection b = some
      { mkFilter a.capacity a.error_rate with
        bit_array := List.zipWith and a.bit_array b.bit_array
        element_count :=
          (BloomFilter.calc_element_count
            { mkFilter a.capacity a.error_rate with
              bit_array := List.zipWith and a.bit_array b.bit_array }).toNat } := by
  rw [BloomFilter.intersection]
  simp [hs, hh]

lemma union_eq_none (a b : BloomFilter)
    (h : a.size ≠ b.size ∨ a.hash_count ≠ b.hash_count) :
    a.union b = none := by
  rw [BloomFilter.union]
  rcases h with h | h
  · rw [if_pos h]
  · by_cases hs : a.size ≠ b.size
    · rw [if_pos hs]
    · rw [if_neg hs, if_pos h]

lemma intersection_eq_none (a b : BloomFilter)
    (h : a.size ≠ b.size ∨ a.hash_count ≠ b.hash_count) :
    a.intersection b = none := by
  rw [BloomFilter.intersection]
  rcases h with h | h
  · rw [if_pos h]
  · by_cases hs : a.size ≠ b.size
    · rw [if_pos hs]
    · rw [if_neg hs, if_pos h]

lemma calc_hash_count_sized_pos (c : ℤ) (p : ℝ) (hc : 0 < c) (hp0 : 0 < p)
    (hp1 : p < 1) :
    0 < BloomFilter.calc_hash_count (BloomFilter.calc_size c p).toNat c := by
  have hsize : 0 < (BloomFilter.calc_size c p).toNat := by
    have := calc_size_pos c p hc hp0 hp1
    omega
  rw [BloomFilter.calc_hash_count]
  apply Int.ceil_pos.mpr
  apply mul_pos
  · apply div_pos
    · exact_mod_cast hsize
    · exact_mod_cast hc
  · exact Real.log_pos one_lt_two

/-! ### Concrete objects used by the witnesses -/

/-- Concrete seeded hash used in witnesses (the embedding is parametric in
the hash function). -/
def hashEx : String → ℕ → ℤ := fun _ seed => (seed : ℤ)

/-- A concrete filter state: capacity 2, three bits, all clear. -/
noncomputable def exampleFilter : BloomFilter :=
  { capacity := 2, error_rate := 1/2, size := 3, hash_count := 2
    bit_array := [false, false, false], element_count := 0 }

/-- A concrete filter state with a different bit-array size. -/
noncomputable def exampleFilterB : BloomFilter :=
  { capacity := 2, error_rate := 1/2, size := 4, hash_count := 2
    bit_array := [false, false, false, false], element_count := 0 }

/-! ### C1 -/

/-- C1: for every `BloomFilter` and element `e`, after `add(e)` a
`lookup(e)` returns `true`, and it keeps returning `true` after any
further sequence of `add` calls; bits are only ever set, never cleared.
(The two hypotheses are the constructor-established state invariants:
positive bit-array size and bit-array length equal to `size`.) -/
theorem bloomFilter_no_false_negatives (hash : String → ℕ → ℤ)
    (f : BloomFilter) (e : String) (later : List String)
    (hsz : 0 < f.size) (hlen : f.bit_array.length = f.size) :
    (later.foldl (BloomFilter.add hash) (f.add hash e)).lookup hash e = true ∧
    (∀ (g : BloomFilter) (x : String) (i : ℕ),
        g.bit_array.getD i false = true →
        (g.add hash x).bit_array.getD i false = true) := by
  constructor
  · have h1 : (f.add hash e).lookup hash e = true :=
      lookup_add_self hash f e hsz hlen
    rw [lookup_iff] at h1 ⊢
    intro s hs
    rw [foldl_add_hash_count] at hs
    rw [foldl_add_size]
    exact foldl_add_getD_mono hash later _ _
      (h1 s (by simpa using hs))
  · intro g x i h
    exact add_getD_mono hash g x i h

/-- Witness for C1 at a concrete filter, hash and element list. -/
theorem bloomFilter_no_false_negatives_witness :
    (0 < exampleFilter.size ∧
      exampleFilter.bit_array.length = exampleFilter.size) ∧
    (["b"].foldl (BloomFilter.add hashEx)
        (exampleFilter.add hashEx "a")).lookup hashEx "a" = true :=
  ⟨⟨by decide, by decide⟩,
    (bloomFilter_no_false_negatives hashEx exampleFilter "a" ["b"]
      (by decide) (by decide)).1⟩

/-! ### C4 -/

/-- C4: `union`/`intersection` on filters with differing `size` or
`hash_count` always yield the incompatibility signal (the source's `None`,
`Option.none` here) and never any filter value, so the signal cannot be
mistaken for a valid (empty or other) filter. -/
theorem incompatible_filters_rejected (a b : BloomFilter)
    (h : a.size ≠ b.size ∨ a.hash_count ≠ b.hash_count) :
    a.union b = none ∧ a.intersection b = none ∧
    ∀ f : BloomFilter, a.union b ≠ some f ∧ a.intersection b ≠ some f := by
  refine ⟨union_eq_none a b h, intersection_eq_none a b h, ?_⟩
  intro f
  rw [union_eq_none a b h, intersection_eq_none a b h]
  exact ⟨by simp, by simp⟩

/-- Witness for C4 at two concrete filters with different sizes. -/
theorem incompatible_filters_rejected_witness :
    (exampleFilter.size ≠ exampleFilterB.size ∨
      exampleFilter.hash_count ≠ exampleFilterB.hash_count) ∧
    exampleFilter.union exampleFilterB = none :=
  ⟨Or.inl (by decide),
    (incompatible_filters_rejected exampleFilter exampleFilterB
      (Or.inl (by decide))).1⟩

/-! ### C8 -/

/-- C8: `is_full()` is true exactly when `element_count >= capacity`, and
`add` increments `element_count` unconditionally (never capped). -/
theorem is_full_iff_at_capacity (f : BloomFilter) (hash : String → ℕ → ℤ)
    (e : String) :
    (f.is_full = true ↔ f.capacity ≤ (f.element_count : ℤ)) ∧
    (f.add hash e).element_count = f.element_count + 1 := by
  refine ⟨?_, rfl⟩
  rw [BloomFilter.is_full]
  constructor
  · intro htrue
    by_contra hgt
    rw [if_pos (by omega)] at htrue
    exact absurd htrue (by simp)
  · intro hle
    rw [if_neg (by omega)]

/-! ### C10 -/

/-- C10: on both classes the membership operator `__contains__` returns
exactly what `lookup` returns. -/
theorem contains_eq_lookup :
    (∀ (hash : String → ℕ → ℤ) (f : BloomFilter) (e : String),
        BloomFilter.contains hash f e = f.lookup hash e) ∧
    (∀ (hash : String → ℕ → ℤ) (s : ScalableBloomFilter) (e : String),
        ScalableBloomFilter.contains hash s e = s.lookup hash e) :=
  ⟨fun _ _ _ => rfl, fun _ _ _ => rfl⟩

/-! ### C5 -/

/-- C5: `BloomFilter` construction succeeds exactly when `capacity > 0`
and `0 < error_rate < 1`, and otherwise yields an error (no filter value);
`ScalableBloomFilter` construction succeeds exactly when additionally
`scale_factor > 0` and `scale_mode` is one of the two `SCALE_MODE_*`
constants, and otherwise yields an error (no filter value). -/
theorem construction_validation :
    (∀ (c : ℤ) (p : ℝ),
        (∃ f, BloomFilter.init c p = .ok f) ↔ (0 < c ∧ 0 < p ∧ p < 1)) ∧
    (∀ (c : ℤ) (p : ℝ),
        (∃ msg, BloomFilter.init c p = .error msg) ↔
          ¬(0 < c ∧ 0 < p ∧ p < 1)) ∧
    (∀ (ic : ℤ) (p sf : ℝ) (sm : ℤ),
        (∃ s, ScalableBloomFilter.init ic p sf sm = .ok s) ↔
          (0 < ic ∧ 0 < p ∧ p < 1 ∧ 0 < sf ∧ (sm = 1 ∨ sm = 2))) ∧
    (∀ (ic : ℤ) (p sf : ℝ) (sm : ℤ),
        (∃ msg, ScalableBloomFilter.init ic p sf sm = .error msg) ↔
          ¬(0 < ic ∧ 0 < p ∧ p < 1 ∧ 0 < sf ∧ (sm = 1 ∨ sm = 2))) := by
  refine ⟨?_, ?_, ?_, ?_⟩
  · intro c p
    rw [BloomFilter.init]
    by_cases h1 : c > 0
    · by_cases h2 : 0 < p ∧ p < 1
      · simp [h1, h2]
      · simp [h1, h2]
    · simp [h1]
  · intro c p
    rw [BloomFilter.init]
    by_cases h1 : c > 0
    · by_cases h2 : 0 < p ∧ p < 1
      · simp [h1, h2]
      · simp [h1, h2]
    · simp [h1]
  · intro ic p sf sm
    rw [ScalableBloomFilter.init]
    by_cases h1 : ic > 0
    · by_cases h2 : 0 < p ∧ p < 1
      · by_cases h3 : sf > 0
        · by_cases h4 : sm = 1 ∨ sm = 2
          · simp [h1, h2, h3, h4]
          · simp [h1, h2, h3, h4]
        · simp [h1, h2, h3]
      · simp [h1, h2]
        intro hp0 hp1
        exact absurd ⟨hp0, hp1⟩ h2
    · simp [h1]
  · intro ic p sf sm
    rw [ScalableBloomFilter.init]
    by_cases h1 : ic > 0
    · by_cases h2 : 0 < p ∧ p < 1
      · by_cases h3 : sf > 0
        · by_cases h4 : sm = 1 ∨ sm = 2
          · simp [h1, h2, h3, h4]
          · simp [h1, h2, h3, h4]
        · simp [h1, h2, h3]
      · simp [h1, h2]
        intro hp0 hp1
        exact absurd ⟨hp0, hp1⟩ h2
    · simp [h1]

/-! ### C6 -/

/-- C6: a validly constructed `BloomFilter` has
`size = ceil(-capacity * ln(error_rate) / ln(2)^2)` and
`hash_count = ceil((size / capacity) * ln(2))`, `hash_count ≥ 1`, and both
values are unchanged by any later sequence of `add` calls.  (The source
computes these with floating point; the model idealises floats as reals.) -/
theorem derived_sizing (c : ℤ) (p : ℝ) (hc : 0 < c) (hp0 : 0 < p)
    (hp1 : p < 1) :
    ∃ f, BloomFilter.init c p = .ok f ∧
      (f.size : ℤ) = ⌈-((c : ℝ) * Real.log p) / (Real.log 2) ^ 2⌉ ∧
      (f.hash_count : ℤ) = ⌈((f.size : ℝ) / (c : ℝ)) * Real.log 2⌉ ∧
      1 ≤ f.hash_count ∧
      ∀ (hash : String → ℕ → ℤ) (xs : List String),
        (xs.foldl (BloomFilter.add hash) f).size = f.size ∧
        (xs.foldl (BloomFilter.add hash) f).hash_count = f.hash_count := by
  refine ⟨mkFilter c p, ?_, ?_, ?_, ?_, ?_⟩
  · rw [BloomFilter.init]
    rw [if_neg (by simpa using hc), if_neg (by simp [hp0, hp1])]
  · rw [mkFilter_size, Int.toNat_of_nonneg (calc_size_pos c p hc hp0 hp1).le]
    rfl
  · rw [mkFilter_hash_count,
      Int.toNat_of_nonneg (calc_hash_count_sized_pos c p hc hp0 hp1).le]
    rfl
  · exact mkFilter_hash_count_pos c p hc hp0 hp1
  · intro hash xs
    exact ⟨foldl_add_size hash xs _, foldl_add_hash_count hash xs _⟩

/-- Witness for C6 at `capacity = 10`, `error_rate = 1/2`. -/
theorem derived_sizing_witness :
    ((0 : ℤ) < 10 ∧ (0 : ℝ) < 1/2 ∧ (1/2 : ℝ) < 1) ∧
    ∃ f, BloomFilter.init 10 (1/2) = .ok f ∧
      (f.size : ℤ) = ⌈-((10 : ℤ) * Real.log (1/2) : ℝ) / (Real.log 2) ^ 2⌉ ∧
      (f.hash_count : ℤ) = ⌈((f.size : ℝ) / ((10 : ℤ) : ℝ)) * Real.log 2⌉ ∧
      1 ≤ f.hash_count ∧
      ∀ (hash : String → ℕ → ℤ) (xs : List String),
        (xs.foldl (BloomFilter.add hash) f).size = f.size ∧
        (xs.foldl (BloomFilter.add hash) f).hash_count = f.hash_count :=
  ⟨⟨by decide, by norm_num, by norm_num⟩,
    derived_sizing 10 (1/2) (by decide) (by norm_num) (by norm_num)⟩

/-! ### C2 -/

lemma bool_eq_of_true_iff (a b : Bool) (h : a = true ↔ b = true) : a = b := by
  cases a <;> cases b <;> simp_all

lemma lookup_true_of_bits (hash : String → ℕ → ℤ) (f g : BloomFilter)
    (hsz : g.size = f.size) (hhc : g.hash_count = f.hash_count)
    (hbits : ∀ i, f.bit_array.getD i false = true →
      g.bit_array.getD i false = true)
    (e : String) (hf : f.lookup hash e = true) : g.lookup hash e = true := by
  rw [lookup_iff] at hf ⊢
  intro s hs
  rw [hhc] at hs
  rw [hsz]
  exact hbits _ (hf s hs)

lemma buildFrom_probe_bits (hash : String → ℕ → ℤ) (c : ℤ) (p : ℝ)
    (xs : List String) (e : String) (he : e ∈ xs)
    (hsz : 0 < (mkFilter c p).size) :
    ∀ s < (mkFilter c p).hash_count,
      (buildFrom hash c p xs).bit_array.getD
        (hashPos hash (mkFilter c p).size e s) false = true := by
  intro s hs
  rw [buildFrom, foldl_add_getD_true_iff]
  refine Or.inr ⟨e, he, s, hs, rfl, ?_⟩
  rw [mkFilter_bit_length]
  exact hashPos_lt hash _ e s hsz

/-- C2: for compatible filters `A`, `B` (equal `size` and `hash_count`,
with the constructor-established invariants), `union(A,B)` succeeds and
its `lookup(e)` is `true` whenever `A.lookup(e)` or `B.lookup(e)` is; and
for filters built from scratch from element lists `xs` and `ys` with
compatible parameters, the union answers `lookup` exactly as a filter
built from scratch on `xs ++ ys` would. -/
theorem union_sound_and_lossless (hash : String → ℕ → ℤ) :
    (∀ A B : BloomFilter, WellFormed A → WellFormed B → A.size = B.size →
      A.hash_count = B.hash_count →
      ∃ u, A.union B = some u ∧
        ∀ e, (A.lookup hash e || B.lookup hash e) = true →
          u.lookup hash e = true) ∧
    (∀ (c c' : ℤ) (p p' : ℝ) (xs ys : List String),
      (mkFilter c p).size = (mkFilter c' p').size →
      (mkFilter c p).hash_count = (mkFilter c' p').hash_count →
      ∃ u, (buildFrom hash c p xs).union (buildFrom hash c' p' ys) = some u ∧
        ∀ e, u.lookup hash e = (buildFrom hash c p (xs ++ ys)).lookup hash e) := by
  constructor
  · intro A B wfA wfB hs hh
    refine ⟨_, union_eq_some A B hs hh, ?_⟩
    intro e he
    rw [Bool.or_eq_true] at he
    obtain ⟨wfA1, wfA2, wfA3⟩ := wfA
    obtain ⟨wfB1, wfB2, wfB3⟩ := wfB
    have hlen : A.bit_array.length = B.bit_array.length := by
      rw [wfA3, wfB3, hs]
    rcases he with hA | hB
    · refine lookup_true_of_bits hash A _ ?_ ?_ ?_ e hA
      · exact wfA1.symm
      · exact wfA2.symm
      intro i hi
      have hiA : i < A.bit_array.length := getD_true_lt_length hi
      show (List.zipWith or A.bit_array B.bit_array).getD i false = true
      rw [getD_zipWith_or_true_iff]
      exact ⟨hiA, hlen ▸ hiA, Or.inl hi⟩
    · refine lookup_true_of_bits hash B _ ?_ ?_ ?_ e hB
      · exact wfA1.symm.trans hs
      · exact wfA2.symm.trans hh
      intro i hi
      have hiB : i < B.bit_array.length := getD_true_lt_length hi
      show (List.zipWith or A.bit_array B.bit_array).getD i false = true
      rw [getD_zipWith_or_true_iff]
      exact ⟨hlen.symm ▸ hiB, hiB, Or.inr hi⟩
  · intro c c' p p' xs ys hs hh
    have hAsz : (buildFrom hash c p xs).size = (mkFilter c p).size :=
      foldl_add_size hash xs _
    have hBsz : (buildFrom hash c' p' ys).size = (mkFilter c' p').size :=
      foldl_add_size hash ys _
    have hAhc : (buildFrom hash c p xs).hash_count = (mkFilter c p).hash_count :=
      foldl_add_hash_count hash xs _
    have hBhc : (buildFrom hash c' p' ys).hash_count = (mkFilter c' p').hash_count :=
      foldl_add_hash_count hash ys _
    have hsAB : (buildFrom hash c p xs).size = (buildFrom hash c' p' ys).size := by
      rw [hAsz, hBsz, hs]
    have hhAB : (buildFrom hash c p xs).hash_count =
        (buildFrom hash c' p' ys).hash_count := by
      rw [hAhc, hBhc, hh]
    refine ⟨_, union_eq_some _ _ hsAB hhAB, ?_⟩
    intro e
    have hAcap : (buildFrom hash c p xs).capacity = c := foldl_add_capacity hash xs _
    have hAer : (buildFrom hash c p xs).error_rate = p := foldl_add_error_rate hash xs _
    have hAlen : (buildFrom hash c p xs).bit_array.length = (mkFilter c p).size := by
      rw [buildFrom, foldl_add_bit_length, mkFilter_bit_length]
    have hBlen : (buildFrom hash c' p' ys).bit_array.length = (mkFilter c p).size := by
      rw [buildFrom, foldl_add_bit_length, mkFilter_bit_length, hs]
    have hbits : ∀ i,
        (List.zipWith or (buildFrom hash c p xs).bit_array
          (buildFrom hash c' p' ys).bit_array).getD i false
          = (buildFrom hash c p (xs ++ ys)).bit_array.getD i false := by
      intro i
      apply bool_eq_of_true_iff
      rw [getD_zipWith_or_true_iff]
      rw [show (buildFrom hash c p xs).bit_array
            = (xs.foldl (BloomFilter.add hash) (mkFilter c p)).bit_array from rfl,
          show (buildFrom hash c' p' ys).bit_array
            = (ys.foldl (BloomFilter.add hash) (mkFilter c' p')).bit_array from rfl,
          show (buildFrom hash c p (xs ++ ys)).bit_array
            = ((xs ++ ys).foldl (BloomFilter.add hash) (mkFilter c p)).bit_array from rfl,
          foldl_add_getD_true_iff, foldl_add_getD_true_iff, foldl_add_getD_true_iff]
      simp only [mkFilter_getD, Bool.false_eq_true, false_or, List.mem_append,
        mkFilter_bit_length]
      constructor
      · rintro ⟨hiA, hiB, hcase⟩
        rcases hcase with ⟨x, hx, s, hsc, hp2, hi2⟩ | ⟨y, hy, s, hsc, hp2, hi2⟩
        · exact ⟨x, Or.inl hx, s, hsc, hp2, hi2⟩
        · refine ⟨y, Or.inr hy, s, ?_, ?_, ?_⟩
          · rw [hh]; exact hsc
          · rw [hs]; exact hp2
          · rw [hs]; exact hi2
      · rintro ⟨x, hx | hx, s, hsc, hp2, hi2⟩
        · have hi' : i < (buildFrom hash c p xs).bit_array.length := by
            rw [hAlen]; exact hi2
          refine ⟨hi',
            by rw [foldl_add_bit_length, mkFilter_bit_length, ← hs]; exact hi2,
            Or.inl ⟨x, hx, s, hsc, hp2, hi2⟩⟩
        · have hi' : i < (buildFrom hash c p xs).bit_array.length := by
            rw [hAlen]; exact hi2
          refine ⟨hi',
            by rw [foldl_add_bit_length, mkFilter_bit_length, ← hs]; exact hi2,
            Or.inr ⟨x, hx, s, by rw [← hh]; exact hsc, by rw [← hs]; exact hp2,
              by rw [← hs]; exact hi2⟩⟩
    apply bool_eq_of_true_iff
    rw [lookup_iff, lookup_iff]
    have husz : ({ mkFilter (buildFrom hash c p xs).capacity
        (buildFrom hash c p xs).error_rate with
        bit_array := List.zipWith or (buildFrom hash c p xs).bit_array
          (buildFrom hash c' p' ys).bit_array
        element_count := (buildFrom hash c p xs).element_count +
          (buildFrom hash c' p' ys).element_count } : BloomFilter).size
        = (buildFrom hash c p (xs ++ ys)).size := by
      show (mkFilter (buildFrom hash c p xs).capacity
        (buildFrom hash c p xs).error_rate).size = _
      rw [hAcap, hAer, buildFrom, foldl_add_size]
    have huhc : ({ mkFilter (buildFrom hash c p xs).capacity
        (buildFrom hash c p xs).error_rate with
        bit_array := List.zipWith or (buildFrom hash c p xs).bit_array
          (buildFrom hash c' p' ys).bit_array
        element_count := (buildFrom hash c p xs).element_count +
          (buildFrom hash c' p' ys).element_count } : BloomFilter).hash_count
        = (buildFrom hash c p (xs ++ ys)).hash_count := by
      show (mkFilter (buildFrom hash c p xs).capacity
        (buildFrom hash c p xs).error_rate).hash_count = _
      rw [hAcap, hAer, buildFrom, foldl_add_hash_count]
    rw [husz, huhc]
    constructor
    · intro hall s hsc
      have := hall s hsc
      rw [← hbits]
      exact this
    · intro hall s hsc
      have := hall s hsc
      rw [hbits]
      exact this

/-- Witness for C2 at concrete parameters `(10, 1/2)` and element lists. -/
theorem union_sound_and_lossless_witness :
    (WellFormed (mkFilter 10 (1/2 : ℝ)) ∧
      (mkFilter 10 (1/2 : ℝ)).size = (mkFilter 10 (1/2 : ℝ)).size ∧
      (mkFilter 10 (1/2 : ℝ)).hash_count = (mkFilter 10 (1/2 : ℝ)).hash_count) ∧
    (∃ u, (mkFilter 10 (1/2 : ℝ)).union (mkFilter 10 (1/2 : ℝ)) = some u ∧
      ∀ e, ((mkFilter 10 (1/2 : ℝ)).lookup hashEx e ||
          (mkFilter 10 (1/2 : ℝ)).lookup hashEx e) = true →
        u.lookup hashEx e = true) ∧
    (∃ u, (buildFrom hashEx 10 (1/2) ["a"]).union
        (buildFrom hashEx 10 (1/2) ["b"]) = some u ∧
      ∀ e, u.lookup hashEx e =
        (buildFrom hashEx 10 (1/2) (["a"] ++ ["b"])).lookup hashEx e) :=
  ⟨⟨wellFormed_mkFilter 10 (1/2), rfl, rfl⟩,
    (union_sound_and_lossless hashEx).1 (mkFilter 10 (1/2))
      (mkFilter 10 (1/2)) (wellFormed_mkFilter 10 (1/2))
      (wellFormed_mkFilter 10 (1/2)) rfl rfl,
    (union_sound_and_lossless hashEx).2 10 10 (1/2) (1/2) ["a"] ["b"] rfl rfl⟩

/-! ### C3 -/

/-- C3: for compatible filters `A`, `B`, `intersection(A,B)` succeeds and
its `lookup(e)` is `true` only if both `A.lookup(e)` and `B.lookup(e)`
are; and for an element actually added to both source filters (built from
scratch with compatible parameters), the intersection's `lookup` is
`true`. -/
theorem intersection_conservative (hash : String → ℕ → ℤ) :
    (∀ A B : BloomFilter, WellFormed A → WellFormed B → A.size = B.size →
      A.hash_count = B.hash_count →
      ∃ r, A.intersection B = some r ∧
        ∀ e, r.lookup hash e = true →
          A.lookup hash e = true ∧ B.lookup hash e = true) ∧
    (∀ (c c' : ℤ) (p p' : ℝ) (xs ys : List String) (e : String),
      (mkFilter c p).size = (mkFilter c' p').size →
      (mkFilter c p).hash_count = (mkFilter c' p').hash_count →
      e ∈ xs → e ∈ ys → 0 < (mkFilter c p).size →
      ∃ r, (buildFrom hash c p xs).intersection (buildFrom hash c' p' ys)
          = some r ∧ r.lookup hash e = true) := by
  constructor
  · intro A B wfA wfB hs hh
    refine ⟨_, intersection_eq_some A B hs hh, ?_⟩
    intro e hr
    obtain ⟨wfA1, wfA2, wfA3⟩ := wfA
    obtain ⟨wfB1, wfB2, wfB3⟩ := wfB
    rw [lookup_iff] at hr
    constructor
    · rw [lookup_iff]
      intro s hsc
      have hbit := hr s (by
        show s < (mkFilter A.capacity A.error_rate).hash_count
        rw [← wfA2]; exact hsc)
      rw [show ({ mkFilter A.capacity A.error_rate with
          bit_array := List.zipWith and A.bit_array B.bit_array
          element_count := (BloomFilter.calc_element_count
            { mkFilter A.capacity A.error_rate with
              bit_array := List.zipWith and A.bit_array B.bit_array }).toNat }
            : BloomFilter).size
          = A.size from wfA1.symm] at hbit
      have := (getD_zipWith_and_true_iff A.bit_array B.bit_array _).mp hbit
      exact this.2.2.1
    · rw [lookup_iff]
      intro s hsc
      have hbit := hr s (by
        show s < (mkFilter A.capacity A.error_rate).hash_count
        rw [← wfA2, hh]; exact hsc)
      rw [show ({ mkFilter A.capacity A.error_rate with
          bit_array := List.zipWith and A.bit_array B.bit_array
          element_count := (BloomFilter.calc_element_count
            { mkFilter A.capacity A.error_rate with
              bit_array := List.zipWith and A.bit_array B.bit_array }).toNat }
            : BloomFilter).size
          = B.size from (wfA1.symm.trans hs)] at hbit
      have := (getD_zipWith_and_true_iff A.bit_array B.bit_array _).mp hbit
      exact this.2.2.2
  · intro c c' p p' xs ys e hs hh hex hey hsz
    have hAcap : (buildFrom hash c p xs).capacity = c :=
      foldl_add_capacity hash xs _
    have hAer : (buildFrom hash c p xs).error_rate = p :=
      foldl_add_error_rate hash xs _
    have hsAB : (buildFrom hash c p xs).size = (buildFrom hash c' p' ys).size := by
      rw [buildFrom, buildFrom, foldl_add_size, foldl_add_size, hs]
    have hhAB : (buildFrom hash c p xs).hash_count
        = (buildFrom hash c' p' ys).hash_count := by
      rw [buildFrom, buildFrom, foldl_add_hash_count, foldl_add_hash_count, hh]
    refine ⟨_, intersection_eq_some _ _ hsAB hhAB, ?_⟩
    rw [lookup_iff]
    intro s hsc
    have hsc' : s < (mkFilter c p).hash_count := by
      have : ({ mkFilter (buildFrom hash c p xs).capacity
          (buildFrom hash c p xs).error_rate with
          bit_array := List.zipWith and (buildFrom hash c p xs).bit_array
            (buildFrom hash c' p' ys).bit_array
          element_count := (BloomFilter.calc_element_count
            { mkFilter (buildFrom hash c p xs).capacity
                (buildFrom hash c p xs).error_rate with
              bit_array := List.zipWith and (buildFrom hash c p xs).bit_array
                (buildFrom hash c' p' ys).bit_array }).toNat }
            : BloomFilter).hash_count = (mkFilter c p).hash_count := by
        show (mkFilter (buildFrom hash c p xs).capacity
          (buildFrom hash c p xs).error_rate).hash_count = _
        rw [hAcap, hAer]
      rw [this] at hsc
      exact hsc
    have hrsz : ({ mkFilter (buildFrom hash c p xs).capacity
        (buildFrom hash c p xs).error_rate with
        bit_array := List.zipWith and (buildFrom hash c p xs).bit_array
          (buildFrom hash c' p' ys).bit_array
        element_count := (BloomFilter.calc_element_count
          { mkFilter (buildFrom hash c p xs).capacity
              (buildFrom hash c p xs).error_rate with
            bit_array := List.zipWith and (buildFrom hash c p xs).bit_array
              (buildFrom hash c' p' ys).bit_array }).toNat }
          : BloomFilter).size = (mkFilter c p).size := by
      show (mkFilter (buildFrom hash c p xs).capacity
        (buildFrom hash c p xs).error_rate).size = _
      rw [hAcap, hAer]
    rw [hrsz]
    show (List.zipWith and (buildFrom hash c p xs).bit_array
      (buildFrom hash c' p' ys).bit_array).getD
        (hashPos hash (mkFilter c p).size e s) false = true
    rw [getD_zipWith_and_true_iff]
    have hpos : hashPos hash (mkFilter c p).size e s < (mkFilter c p).size :=
      hashPos_lt hash _ e s hsz
    refine ⟨?_, ?_, ?_, ?_⟩
    · rw [buildFrom, foldl_add_bit_length, mkFilter_bit_length]
      exact hpos
    · rw [buildFrom, foldl_add_bit_length, mkFilter_bit_length, ← hs]
      exact hpos
    · exact buildFrom_probe_bits hash c p xs e hex hsz s hsc'
    · have : hashPos hash (mkFilter c p).size e s
          = hashPos hash (mkFilter c' p').size e s := by rw [hs]
      rw [this]
      exact buildFrom_probe_bits hash c' p' ys e hey (hs ▸ hsz) s (hh ▸ hsc')

/-- Witness for C3 at concrete parameters `(10, 1/2)` and a shared
element. -/
theorem intersection_conservative_witness :
    (WellFormed (mkFilter 10 (1/2 : ℝ)) ∧
      "a" ∈ ["a", "b"] ∧ "a" ∈ ["a"] ∧ 0 < (mkFilter 10 (1/2 : ℝ)).size) ∧
    (∃ r, (mkFilter 10 (1/2 : ℝ)).intersection (mkFilter 10 (1/2 : ℝ))
        = some r ∧
      ∀ e, r.lookup hashEx e = true →
        (mkFilter 10 (1/2 : ℝ)).lookup hashEx e = true ∧
        (mkFilter 10 (1/2 : ℝ)).lookup hashEx e = true) ∧
    (∃ r, (buildFrom hashEx 10 (1/2) ["a", "b"]).intersection
        (buildFrom hashEx 10 (1/2) ["a"]) = some r ∧
      r.lookup hashEx "a" = true) :=
  ⟨⟨wellFormed_mkFilter 10 (1/2), by simp, by simp,
      mkFilter_size_pos 10 (1/2) (by decide) (by norm_num) (by norm_num)⟩,
    (intersection_conservative hashEx).1 (mkFilter 10 (1/2))
      (mkFilter 10 (1/2)) (wellFormed_mkFilter 10 (1/2))
      (wellFormed_mkFilter 10 (1/2)) rfl rfl,
    (intersection_conservative hashEx).2 10 10 (1/2) (1/2) ["a", "b"] ["a"]
      "a" rfl rfl (by simp) (by simp)
      (mkFilter_size_pos 10 (1/2) (by decide) (by norm_num) (by norm_num))⟩

/-! ### Helper lemmas about `ScalableBloomFilter` -/

@[simp] lemma scalable_add_initial_capacity (hash : String → ℕ → ℤ)
    (s : ScalableBloomFilter) (e : String) :
    (s.add hash e).initial_capacity = s.initial_capacity := rfl

@[simp] lemma scalable_add_error_rate (hash : String → ℕ → ℤ)
    (s : ScalableBloomFilter) (e : String) :
    (s.add hash e).error_rate = s.error_rate := rfl

@[simp] lemma scalable_add_scale_factor (hash : String → ℕ → ℤ)
    (s : ScalableBloomFilter) (e : String) :
    (s.add hash e).scale_factor = s.scale_factor := rfl

@[simp] lemma scalable_add_scale_mode (hash : String → ℕ → ℤ)
    (s : ScalableBloomFilter) (e : String) :
    (s.add hash e).scale_mode = s.scale_mode := rfl

lemma scalable_add_filters_not_full (hash : String → ℕ → ℤ)
    (s : ScalableBloomFilter) (e : String)
    (h : (s.filters.getLastD emptyBF).is_full = false) :
    (s.add hash e).filters =
      s.filters.dropLast ++ [(s.filters.getLastD emptyBF).add hash e] := by
  simp only [ScalableBloomFilter.add, h]
  simp

lemma scalable_add_filters_full (hash : String → ℕ → ℤ)
    (s : ScalableBloomFilter) (e : String)
    (h : (s.filters.getLastD emptyBF).is_full = true) :
    (s.add hash e).filters =
      s.filters ++ [(mkFilter s.calc_next_capacity s.error_rate).add hash e] := by
  simp only [ScalableBloomFilter.add, h]
  simp

lemma foldl_sadd_config (hash : String → ℕ → ℤ) :
    ∀ (es : List String) (s : ScalableBloomFilter),
      (es.foldl (ScalableBloomFilter.add hash) s).initial_capacity
          = s.initial_capacity ∧
      (es.foldl (ScalableBloomFilter.add hash) s).error_rate = s.error_rate ∧
      (es.foldl (ScalableBloomFilter.add hash) s).scale_factor = s.scale_factor ∧
      (es.foldl (ScalableBloomFilter.add hash) s).scale_mode = s.scale_mode := by
  intro es
  induction es with
  | nil => intro s; exact ⟨rfl, rfl, rfl, rfl⟩
  | cons e es ih =>
    intro s
    rw [List.foldl_cons]
    obtain ⟨h1, h2, h3, h4⟩ := ih (s.add hash e)
    exact ⟨h1, h2, h3, h4⟩

/-- While the single seeded filter still has room for all the elements,
adds never append a second filter: they only fill the first one. -/
lemma single_filter_adds (hash : String → ℕ → ℤ) :
    ∀ (es : List String) (s : ScalableBloomFilter) (f : BloomFilter),
      s.filters = [f] → ((f.element_count : ℤ) + es.length ≤ f.capacity) →
      ∃ g, (es.foldl (ScalableBloomFilter.add hash) s).filters = [g] ∧
        g.element_count = f.element_count + es.length ∧
        g.capacity = f.capacity := by
  intro es
  induction es with
  | nil =>
    intro s f hf _
    exact ⟨f, hf, by simp, rfl⟩
  | cons e es ih =>
    intro s f hf hroom
    rw [List.foldl_cons]
    have hnotfull : (s.filters.getLastD emptyBF).is_full = false := by
      rw [hf]
      show (([] ++ [f] : List BloomFilter).getLastD emptyBF).is_full = false
      rw [List.getLastD_concat]
      rw [BloomFilter.is_full, if_pos]
      have : (0 : ℤ) ≤ (es.length : ℤ) := by positivity
      have hlen : ((e :: es).length : ℤ) = (es.length : ℤ) + 1 := by
        rw [List.length_cons]
        push_cast
        ring
      omega
    have hfilters : (s.add hash e).filters = [f.add hash e] := by
      rw [scalable_add_filters_not_full hash s e hnotfull, hf]
      show ([f].dropLast ++ [(([] ++ [f] : List BloomFilter).getLastD emptyBF).add hash e]) = _
      rw [List.getLastD_concat]
      rfl
    obtain ⟨g, hg1, hg2, hg3⟩ := ih (s.add hash e) (f.add hash e) hfilters (by
      rw [add_element_count, add_capacity]
      have hlen : ((e :: es).length : ℤ) = (es.length : ℤ) + 1 := by
        rw [List.length_cons]
        push_cast
        ring
      push_cast
      omega)
    refine ⟨g, hg1, ?_, by rw [hg3, add_capacity]⟩
    rw [hg2, add_element_count]
    simp
    omega

/-! ### C7 -/

/-- C7 (amended): `calc_next_capacity` is the integer truncation of
`initial_capacity * scale_factor * len(filters)` (LINEAR) resp.
`initial_capacity * scale_factor ^ len(filters)` (EXPONENTIAL), taken
with `len(filters)` before appending; when `scale_factor` is an integer
(such as the default 2) the truncation is exact, so the capacity equals
the product itself.  With `initial_capacity = 10`, `scale_factor = 2`,
LINEAR mode: after 9 adds there is one non-full filter, the 10th add
makes the single filter full, and the 11th add creates a second filter of
capacity `10 * 2 * 1 = 20`. -/
theorem scalable_next_capacity_and_growth (hash : String → ℕ → ℤ) :
    (∀ (s : ScalableBloomFilter) (k : ℤ),
      s.scale_mode = ScalableBloomFilter.SCALE_MODE_LINEAR →
      s.scale_factor = (k : ℝ) →
      s.calc_next_capacity = s.initial_capacity * k * (s.filters.length : ℤ)) ∧
    (∀ (s : ScalableBloomFilter) (k : ℤ),
      s.scale_mode = ScalableBloomFilter.SCALE_MODE_EXPONENTIAL →
      s.scale_factor = (k : ℝ) →
      s.calc_next_capacity = s.initial_capacity * k ^ s.filters.length) ∧
    (∀ (p : ℝ) (es : List String), es.length = 9 →
      (es.foldl (ScalableBloomFilter.add hash)
          (ScalableBloomFilter.mk0 10 p 2 1)).filters.length = 1 ∧
      ((es.foldl (ScalableBloomFilter.add hash)
          (ScalableBloomFilter.mk0 10 p 2 1)).filters.getLastD
            emptyBF).is_full = false) ∧
    (∀ (p : ℝ) (es : List String), es.length = 10 →
      (es.foldl (ScalableBloomFilter.add hash)
          (ScalableBloomFilter.mk0 10 p 2 1)).filters.length = 1 ∧
      ((es.foldl (ScalableBloomFilter.add hash)
          (ScalableBloomFilter.mk0 10 p 2 1)).filters.getLastD
            emptyBF).is_full = true) ∧
    (∀ (p : ℝ) (es : List String), es.length = 11 →
      (es.foldl (ScalableBloomFilter.add hash)
          (ScalableBloomFilter.mk0 10 p 2 1)).filters.length = 2 ∧
      ((es.foldl (ScalableBloomFilter.add hash)
          (ScalableBloomFilter.mk0 10 p 2 1)).filters.getD 0 emptyBF).capacity
          = 10 ∧
      ((es.foldl (ScalableBloomFilter.add hash)
          (ScalableBloomFilter.mk0 10 p 2 1)).filters.getD 1 emptyBF).capacity
          = 20) := by
  refine ⟨?_, ?_, ?_, ?_, ?_⟩
  · intro s k hmode hsf
    rw [ScalableBloomFilter.calc_next_capacity, if_pos hmode, hsf]
    have hcast : (s.initial_capacity : ℝ) * ((k : ℝ) * (s.filters.length : ℝ))
        = ((s.initial_capacity * k * (s.filters.length : ℤ) : ℤ) : ℝ) := by
      push_cast
      ring
    rw [hcast, py_int]
    by_cases hm :
        (0:ℝ) ≤ ((s.initial_capacity * k * (s.filters.length : ℤ) : ℤ) : ℝ)
    · rw [if_pos hm, Int.floor_intCast]
    · rw [if_neg hm, Int.ceil_intCast]
  · intro s k hmode hsf
    rw [ScalableBloomFilter.calc_next_capacity,
      if_neg (by rw [hmode]; decide), hsf]
    have hcast : (s.initial_capacity : ℝ) * ((k : ℝ) ^ s.filters.length)
        = ((s.initial_capacity * k ^ s.filters.length : ℤ) : ℝ) := by
      push_cast
      ring
    rw [hcast, py_int]
    by_cases hm :
        (0:ℝ) ≤ ((s.initial_capacity * k ^ s.filters.length : ℤ) : ℝ)
    · rw [if_pos hm, Int.floor_intCast]
    · rw [if_neg hm, Int.ceil_intCast]
  · intro p es hlen
    obtain ⟨g, hg1, hg2, hg3⟩ := single_filter_adds hash es
      (ScalableBloomFilter.mk0 10 p 2 1) (mkFilter 10 p) rfl
      (by simp [hlen])
    have hcount : g.element_count = 9 := by
      rw [hg2, mkFilter_element_count, hlen]
    have hcap : g.capacity = 10 := by rw [hg3, mkFilter_capacity]
    refine ⟨by rw [hg1]; rfl, ?_⟩
    have hlast : ((es.foldl (ScalableBloomFilter.add hash)
        (ScalableBloomFilter.mk0 10 p 2 1)).filters.getLastD emptyBF) = g := by
      rw [hg1]
      simp
    rw [hlast, BloomFilter.is_full, if_pos (by rw [hcount, hcap]; norm_num)]
  · intro p es hlen
    obtain ⟨g, hg1, hg2, hg3⟩ := single_filter_adds hash es
      (ScalableBloomFilter.mk0 10 p 2 1) (mkFilter 10 p) rfl
      (by simp [hlen])
    have hcount : g.element_count = 10 := by
      rw [hg2, mkFilter_element_count, hlen]
    have hcap : g.capacity = 10 := by rw [hg3, mkFilter_capacity]
    refine ⟨by rw [hg1]; rfl, ?_⟩
    have hlast : ((es.foldl (ScalableBloomFilter.add hash)
        (ScalableBloomFilter.mk0 10 p 2 1)).filters.getLastD emptyBF) = g := by
      rw [hg1]
      simp
    rw [hlast, BloomFilter.is_full, if_neg (by rw [hcount, hcap]; norm_num)]
  · intro p es hlen
    obtain ⟨ys, y, hes, hys⟩ : ∃ ys y, es = ys ++ [y] ∧ ys.length = 10 := by
      have hne : es ≠ [] := by
        intro h0
        rw [h0] at hlen
        simp at hlen
      refine ⟨es.dropLast, es.getLast hne,
        (List.dropLast_append_getLast hne).symm, by simp [hlen]⟩
    subst hes
    rw [List.foldl_append, List.foldl_cons, List.foldl_nil]
    obtain ⟨g, hg1, hg2, hg3⟩ := single_filter_adds hash ys
      (ScalableBloomFilter.mk0 10 p 2 1) (mkFilter 10 p) rfl
      (by simp [hys])
    have hcount : g.element_count = 10 := by
      rw [hg2, mkFilter_element_count, hys]
    have hcap : g.capacity = 10 := by rw [hg3, mkFilter_capacity]
    obtain ⟨hic, her, hsf, hsm⟩ := foldl_sadd_config hash ys
      (ScalableBloomFilter.mk0 10 p 2 1)
    have hfull : ((ys.foldl (ScalableBloomFilter.add hash)
        (ScalableBloomFilter.mk0 10 p 2 1)).filters.getLastD emptyBF).is_full
        = true := by
      have hlast : ((ys.foldl (ScalableBloomFilter.add hash)
          (ScalableBloomFilter.mk0 10 p 2 1)).filters.getLastD emptyBF) = g := by
        rw [hg1]
        simp
      rw [hlast, BloomFilter.is_full, if_neg (by rw [hcount, hcap]; norm_num)]
    have hnext : (ys.foldl (ScalableBloomFilter.add hash)
        (ScalableBloomFilter.mk0 10 p 2 1)).calc_next_capacity = 20 := by
      rw [ScalableBloomFilter.calc_next_capacity, if_pos (by rw [hsm]; rfl)]
      rw [hic, hsf, hg1]
      have hlen1 : (([g] : List BloomFilter).length : ℝ) = 1 := by norm_num
      rw [hlen1]
      have hval : (((ScalableBloomFilter.mk0 10 p 2 1).initial_capacity : ℤ) : ℝ)
          * ((ScalableBloomFilter.mk0 10 p 2 1).scale_factor * 1)
          = ((20 : ℤ) : ℝ) := by
        show ((10 : ℤ) : ℝ) * ((2 : ℝ) * 1) = ((20 : ℤ) : ℝ)
        norm_num
      rw [hval, py_int, if_pos (by positivity), Int.floor_intCast]
    rw [scalable_add_filters_full hash _ y hfull, hg1, hnext]
    refine ⟨rfl, ?_, ?_⟩
    · show g.capacity = 10
      exact hcap
    · show ((mkFilter 20 (ys.foldl (ScalableBloomFilter.add hash)
        (ScalableBloomFilter.mk0 10 p 2 1)).error_rate).add hash y).capacity = 20
      rw [add_capacity, mkFilter_capacity]

/-- Counterexample to C7 as stated: with `initial_capacity = 1`,
`scale_factor = 3/2` (a valid configuration, `scale_factor > 0`), LINEAR
mode and one filter, the code computes `int(1 * (3/2 * 1)) = 1`, not the
claimed product `1 * (3/2) * 1 = 3/2` — `int()` truncates. -/
theorem scalable_next_capacity_counterexample :
    ¬ (((ScalableBloomFilter.mk0 1 (1/2 : ℝ) (3/2) 1).calc_next_capacity : ℝ)
      = ((ScalableBloomFilter.mk0 1 (1/2 : ℝ) (3/2) 1).initial_capacity : ℝ)
        * (ScalableBloomFilter.mk0 1 (1/2 : ℝ) (3/2) 1).scale_factor
        * ((ScalableBloomFilter.mk0 1 (1/2 : ℝ) (3/2) 1).filters.length : ℝ)) := by
  have h1 : (ScalableBloomFilter.mk0 1 (1/2 : ℝ) (3/2) 1).calc_next_capacity
      = 1 := by
    have hmode : (ScalableBloomFilter.mk0 1 (1/2 : ℝ) (3/2) 1).scale_mode
        = ScalableBloomFilter.SCALE_MODE_LINEAR := rfl
    rw [ScalableBloomFilter.calc_next_capacity, if_pos hmode]
    have hval : (((ScalableBloomFilter.mk0 1 (1/2 : ℝ) (3/2) 1).initial_capacity
          : ℤ) : ℝ)
        * ((ScalableBloomFilter.mk0 1 (1/2 : ℝ) (3/2) 1).scale_factor
          * (((ScalableBloomFilter.mk0 1 (1/2 : ℝ) (3/2) 1).filters.length
            : ℕ) : ℝ))
        = (3/2 : ℝ) := by
      show ((1 : ℤ) : ℝ) * ((3/2 : ℝ) * ((1 : ℕ) : ℝ)) = (3/2 : ℝ)
      norm_num
    rw [hval, py_int, if_pos (by norm_num)]
    rw [Int.floor_eq_iff]
    norm_num
  rw [h1]
  show ((1 : ℤ) : ℝ) ≠ ((1 : ℤ) : ℝ) * (3/2 : ℝ) * ((1 : ℕ) : ℝ)
  norm_num

/-- Witness for C7 (amended) at the concrete configuration `(10, 1/2, 2,
LINEAR)` and eleven added elements. -/
theorem scalable_next_capacity_and_growth_witness :
    ((ScalableBloomFilter.mk0 10 (1/2 : ℝ) 2 1).scale_mode
        = ScalableBloomFilter.SCALE_MODE_LINEAR ∧
      (ScalableBloomFilter.mk0 10 (1/2 : ℝ) 2 1).scale_factor = ((2 : ℤ) : ℝ) ∧
      (List.replicate 11 "a").length = 11) ∧
    (ScalableBloomFilter.mk0 10 (1/2 : ℝ) 2 1).calc_next_capacity
        = (ScalableBloomFilter.mk0 10 (1/2 : ℝ) 2 1).initial_capacity * 2 *
          (((ScalableBloomFilter.mk0 10 (1/2 : ℝ) 2 1).filters.length : ℕ) : ℤ) ∧
    ((List.replicate 11 "a").foldl (ScalableBloomFilter.add hashEx)
        (ScalableBloomFilter.mk0 10 (1/2 : ℝ) 2 1)).filters.length = 2 ∧
    (((List.replicate 11 "a").foldl (ScalableBloomFilter.add hashEx)
        (ScalableBloomFilter.mk0 10 (1/2 : ℝ) 2 1)).filters.getD 1
          emptyBF).capacity = 20 :=
  ⟨⟨rfl, by show (2 : ℝ) = ((2 : ℤ) : ℝ); norm_num, rfl⟩,
    (scalable_next_capacity_and_growth hashEx).1
      (ScalableBloomFilter.mk0 10 (1/2 : ℝ) 2 1) 2 rfl
      (by show (2 : ℝ) = ((2 : ℤ) : ℝ); norm_num),
    ((scalable_next_capacity_and_growth hashEx).2.2.2.2 (1/2)
      (List.replicate 11 "a") rfl).1,
    ((scalable_next_capacity_and_growth hashEx).2.2.2.2 (1/2)
      (List.replicate 11 "a") rfl).2.2⟩

/-! ### C9 -/

lemma scalable_init_example :
    ScalableBloomFilter.init 10 (1/2 : ℝ) 2 1
      = .ok (ScalableBloomFilter.mk0 10 (1/2 : ℝ) 2 1) := by
  rw [ScalableBloomFilter.init, if_neg (by norm_num), if_neg (by norm_num),
    if_neg (by norm_num), if_neg (by norm_num)]

/-- C9: the `filters` sequence of a `ScalableBloomFilter` is seeded with
exactly one filter of `initial_capacity` at construction and is never
empty afterwards; `add` is characterised exactly — when the last filter is
full, the previous sequence is preserved verbatim and exactly one fresh
filter is appended at the end; when it is not, every filter except the
last is preserved verbatim and the last is only bit-updated in place (the
source mutates it through `BloomFilter.add`) — and `union` produces
exactly the concatenation of the two operands' sequences, the first
operand's filters as an unchanged prefix.  No operation removes,
replaces, or reorders previously present filters. -/
theorem filters_append_only (hash : String → ℕ → ℤ) :
    (∀ (ic : ℤ) (p sf : ℝ) (sm : ℤ) (s : ScalableBloomFilter),
      ScalableBloomFilter.init ic p sf sm = .ok s →
      s.filters = [mkFilter ic p]) ∧
    (∀ (s : ScalableBloomFilter) (e : String),
      (s.add hash e).filters ≠ [] ∧
      ((s.filters.getLastD emptyBF).is_full = true →
        (s.add hash e).filters
          = s.filters ++
            [(mkFilter s.calc_next_capacity s.error_rate).add hash e]) ∧
      ((s.filters.getLastD emptyBF).is_full = false →
        (s.add hash e).filters
          = s.filters.dropLast ++
            [(s.filters.getLastD emptyBF).add hash e])) ∧
    (∀ a b : ScalableBloomFilter,
      (a.union b).filters = a.filters ++ b.filters) := by
  refine ⟨?_, ?_, ?_⟩
  · intro ic p sf sm s h
    rw [ScalableBloomFilter.init] at h
    split_ifs at h
    injection h with h
    rw [← h]
    rfl
  · intro s e
    refine ⟨?_, fun h => scalable_add_filters_full hash s e h,
      fun h => scalable_add_filters_not_full hash s e h⟩
    by_cases hfull : (s.filters.getLastD emptyBF).is_full = true
    · rw [scalable_add_filters_full hash s e hfull]
      simp
    · have hfull' : (s.filters.getLastD emptyBF).is_full = false := by
        rw [Bool.not_eq_true] at hfull
        exact hfull
      rw [scalable_add_filters_not_full hash s e hfull']
      simp
  · intro a b
    rfl

lemma mk0_last_not_full_example :
    (((ScalableBloomFilter.mk0 10 (1/2 : ℝ) 2 1).filters.getLastD
      emptyBF)).is_full = false := by
  show (([] ++ [mkFilter 10 (1/2 : ℝ)] : List BloomFilter).getLastD
    emptyBF).is_full = false
  rw [List.getLastD_concat, BloomFilter.is_full, mkFilter_element_count,
    mkFilter_capacity, if_pos (by norm_num)]

/-- Witness for C9 at a concrete construction, add (non-full case, the
premise discharged concretely) and union. -/
theorem filters_append_only_witness :
    (ScalableBloomFilter.init 10 (1/2 : ℝ) 2 1
        = .ok (ScalableBloomFilter.mk0 10 (1/2 : ℝ) 2 1)) ∧
    (((ScalableBloomFilter.mk0 10 (1/2 : ℝ) 2 1).filters.getLastD
        emptyBF)).is_full = false ∧
    (ScalableBloomFilter.mk0 10 (1/2 : ℝ) 2 1).filters
        = [mkFilter 10 (1/2 : ℝ)] ∧
    ((ScalableBloomFilter.mk0 10 (1/2 : ℝ) 2 1).add hashEx "a").filters ≠ [] ∧
    ((ScalableBloomFilter.mk0 10 (1/2 : ℝ) 2 1).add hashEx "a").filters
        = (ScalableBloomFilter.mk0 10 (1/2 : ℝ) 2 1).filters.dropLast ++
          [((ScalableBloomFilter.mk0 10 (1/2 : ℝ) 2 1).filters.getLastD
            emptyBF).add hashEx "a"] ∧
    ((ScalableBloomFilter.mk0 10 (1/2 : ℝ) 2 1).union
        (ScalableBloomFilter.mk0 10 (1/2 : ℝ) 2 1)).filters =
      (ScalableBloomFilter.mk0 10 (1/2 : ℝ) 2 1).filters ++
        (ScalableBloomFilter.mk0 10 (1/2 : ℝ) 2 1).filters :=
  ⟨scalable_init_example,
    mk0_last_not_full_example,
    (filters_append_only hashEx).1 10 (1/2) 2 1 _ scalable_init_example,
    ((filters_append_only hashEx).2.1
      (ScalableBloomFilter.mk0 10 (1/2 : ℝ) 2 1) "a").1,
    ((filters_append_only hashEx).2.1
      (ScalableBloomFilter.mk0 10 (1/2 : ℝ) 2 1) "a").2.2
      mk0_last_not_full_example,
    (filters_append_only hashEx).2.2
      (ScalableBloomFilter.mk0 10 (1/2 : ℝ) 2 1)
      (ScalableBloomFilter.mk0 10 (1/2 : ℝ) 2 1)⟩
